import Mathlib

/-!
Verification development for the search query-compilation and
keyset-pagination engine of the arturo-stac-api repository
(`stac_api/clients/postgres/core.py`).

Items, search requests, the compiled query plan and the response
envelope are shallowly embedded; identifier and collection keys are
modelled as naturals, timestamps and property values as integers, and
geometries by their bounding rectangles.  Store-level query execution
is modelled as filtering and sorting a list of items.
-/

namespace StacCore

/-- Sort direction of one client sort field (`sort.direction` in
`post_search`, values `asc`/`desc`). -/
inductive SortDirection where
  | asc
  | desc
deriving DecidableEq, Repr

/-- One entry of a client sort specification (`search_request.sortby`):
a field name and a direction. -/
structure SortField where
  field : String
  direction : SortDirection
deriving DecidableEq, Repr

/-- An axis-aligned rectangle with corners (x0, y0) and (x1, y1); used
both for item bounding boxes and for the rectangle a request `bbox`
denotes. -/
structure BBox where
  x0 : Int
  y0 : Int
  x1 : Int
  y1 : Int
deriving DecidableEq, Repr

/-- A catalog item (row of `database.Item`): identifier, collection
reference, timestamp, geometry (modelled by its bounding rectangle),
open properties, and stored bounding box. -/
structure Item where
  id : Nat
  collection : Nat
  datetime : Int
  geom : BBox
  props : List (String × Int)
  bbox : BBox
deriving DecidableEq, Repr

/-- Modelled from the spec: `database.Item.get_field` is not among the
provided sources; per §4.1/§6 a field name resolves either to an
indexed column (here the `datetime` column) or to a path inside the
open properties mapping. -/
def Item.getField (it : Item) (name : String) : Int :=
  if name = "datetime" then it.datetime
  else (((it.props.find? (fun p => p.fst = name)).map Prod.snd).getD 0)

/-- Three-way comparison on integers. -/
def cmpInt (a b : Int) : Ordering :=
  if a < b then .lt else if b < a then .gt else .eq

/-- One compiled ORDER BY key: either the item identifier ascending
(the `self.table.id` column appended by `post_search`) or a named field
in a requested direction. -/
inductive SortKey where
  | idKey
  | fieldKey (name : String) (dir : SortDirection)
deriving DecidableEq, Repr

/-- Comparison of two items under a single compiled sort key. -/
def cmpKey (k : SortKey) (a b : Item) : Ordering :=
  match k with
  | .idKey => cmpInt a.id b.id
  | .fieldKey n d =>
    match d with
    | .asc => cmpInt (a.getField n) (b.getField n)
    | .desc => cmpInt (b.getField n) (a.getField n)

/-- Lexicographic comparison of two items under a compiled ORDER BY
key list. -/
def cmpKeys (ks : List SortKey) (a b : Item) : Ordering :=
  match ks with
  | [] => .eq
  | k :: rest => (cmpKey k a b).then (cmpKeys rest a b)

/-- The sort compiled by `post_search` (core.py lines 344-354): the
client's sort fields each in its requested direction with the item
identifier column appended, or, when the client supplies none, item
timestamp descending then identifier. -/
def compileSortKeys (sortby : List SortField) : List SortKey :=
  if sortby.isEmpty then
    [.fieldKey "datetime" .desc, .idKey]
  else
    (sortby.map (fun s => .fieldKey s.field s.direction)) ++ [.idKey]

theorem cmpInt_eq_iff (a b : Int) : cmpInt a b = .eq ↔ a = b := by
  unfold cmpInt
  by_cases h1 : a < b <;> by_cases h2 : b < a <;> simp [h1, h2] <;> omega

theorem cmpInt_self (a : Int) : cmpInt a a = .eq := by
  simp [cmpInt]

theorem cmpInt_lt_iff (a b : Int) : cmpInt a b = .lt ↔ a < b := by
  unfold cmpInt
  split <;> rename_i h
  · simp [h]
  · split <;> simp <;> omega

theorem ordering_then_eq_iff (x y : Ordering) :
    x.then y = .eq ↔ x = .eq ∧ y = .eq := by
  cases x <;> simp [Ordering.then]

theorem cmpKeys_append (ks ks' : List SortKey) (a b : Item) :
    cmpKeys (ks ++ ks') a b = (cmpKeys ks a b).then (cmpKeys ks' a b) := by
  induction ks with
  | nil => simp [cmpKeys, Ordering.then]
  | cons k rest ih =>
    show (cmpKey k a b).then (cmpKeys (rest ++ ks') a b)
        = ((cmpKey k a b).then (cmpKeys rest a b)).then (cmpKeys ks' a b)
    rw [ih]
    cases cmpKey k a b <;> cases cmpKeys rest a b <;> rfl

theorem cmpKeys_idKey_last_eq {ks : List SortKey} {a b : Item}
    (h : cmpKeys (ks ++ [.idKey]) a b = .eq) : a.id = b.id := by
  rw [cmpKeys_append, ordering_then_eq_iff] at h
  have h2 := h.2
  simp only [cmpKeys, cmpKey, ordering_then_eq_iff] at h2
  have := (cmpInt_eq_iff (a.id : Int) (b.id : Int)).mp h2.1
  omega

/-- The sort-key value a compiled key reads off an item. -/
def SortKey.valOf : SortKey → Item → Int
  | .idKey, it => (it.id : Int)
  | .fieldKey n _, it => it.getField n

/-- Whether a compiled key compares ascending. -/
def SortKey.ascQ : SortKey → Bool
  | .idKey => true
  | .fieldKey _ .asc => true
  | .fieldKey _ .desc => false

theorem cmpKey_eq_form (k : SortKey) (a b : Item) :
    cmpKey k a b = if k.ascQ then cmpInt (k.valOf a) (k.valOf b)
                   else cmpInt (k.valOf b) (k.valOf a) := by
  cases k with
  | idKey => rfl
  | fieldKey n d => cases d <;> rfl

theorem cmpInt_trans {a b c : Int} (h1 : cmpInt a b = .lt)
    (h2 : cmpInt b c = .lt) : cmpInt a c = .lt := by
  rw [cmpInt_lt_iff] at h1 h2 ⊢
  omega

theorem cmpKey_eq_val_iff (k : SortKey) (a b : Item) :
    cmpKey k a b = .eq ↔ k.valOf a = k.valOf b := by
  rw [cmpKey_eq_form]
  split
  · exact cmpInt_eq_iff _ _
  · rw [cmpInt_eq_iff]
    exact eq_comm

theorem cmpKey_lt_trans (k : SortKey) {a b c : Item}
    (h1 : cmpKey k a b = .lt) (h2 : cmpKey k b c = .lt) :
    cmpKey k a c = .lt := by
  rw [cmpKey_eq_form] at h1 h2 ⊢
  by_cases hq : k.ascQ = true
  · rw [if_pos hq] at h1 h2 ⊢
    exact cmpInt_trans h1 h2
  · rw [if_neg hq] at h1 h2 ⊢
    exact cmpInt_trans h2 h1

theorem cmpKey_congr_right (k : SortKey) {b c : Item}
    (h : k.valOf b = k.valOf c) (a : Item) : cmpKey k a b = cmpKey k a c := by
  simp only [cmpKey_eq_form, h]

theorem cmpKey_congr_left (k : SortKey) {a b : Item}
    (h : k.valOf a = k.valOf b) (c : Item) : cmpKey k a c = cmpKey k b c := by
  simp only [cmpKey_eq_form, h]

theorem ordering_then_eq_lt_iff (x y : Ordering) :
    x.then y = .lt ↔ x = .lt ∨ (x = .eq ∧ y = .lt) := by
  cases x <;> simp [Ordering.then]

/-- The compiled lexicographic order is transitive. -/
theorem cmpKeys_lt_trans (ks : List SortKey) {a b c : Item}
    (h1 : cmpKeys ks a b = .lt) (h2 : cmpKeys ks b c = .lt) :
    cmpKeys ks a c = .lt := by
  induction ks with
  | nil => exact absurd h1 (by simp [cmpKeys])
  | cons k rest ih =>
    have h1' := (ordering_then_eq_lt_iff (cmpKey k a b) (cmpKeys rest a b)).mp h1
    have h2' := (ordering_then_eq_lt_iff (cmpKey k b c) (cmpKeys rest b c)).mp h2
    show (cmpKey k a c).then (cmpKeys rest a c) = .lt
    rw [ordering_then_eq_lt_iff]
    rcases h1' with hk1 | ⟨hk1, hr1⟩ <;> rcases h2' with hk2 | ⟨hk2, hr2⟩
    · exact Or.inl (cmpKey_lt_trans k hk1 hk2)
    · exact Or.inl (cmpKey_congr_right k ((cmpKey_eq_val_iff k b c).mp hk2) a ▸ hk1)
    · exact Or.inl (cmpKey_congr_left k ((cmpKey_eq_val_iff k a b).mp hk1) c ▸ hk2)
    · refine Or.inr ⟨?_, ih hr1 hr2⟩
      rw [cmpKey_eq_val_iff]
      rw [cmpKey_eq_val_iff] at hk1 hk2
      exact hk1.trans hk2

/-- The compiled sort key list always ends in the identifier key. -/
theorem compileSortKeys_ends_idKey (s : List SortField) :
    ∃ ks, compileSortKeys s = ks ++ [.idKey] := by
  unfold compileSortKeys
  split
  · exact ⟨[.fieldKey "datetime" .desc], rfl⟩
  · exact ⟨s.map (fun f => .fieldKey f.field f.direction), rfl⟩

/-- C1: the sort compiled by `post_search` is the client's sortby
fields, each in its requested direction, followed by the item
identifier ascending as a final tie-break; with no client sort it is
timestamp descending then identifier ascending; and under this
compiled order two items with distinct identifiers never compare
equal. -/
theorem post_search_sort_total (s : List SortField) (f : SortField)
    (fs : List SortField) (a b : Item) (hab : a.id ≠ b.id) :
    compileSortKeys [] = [.fieldKey "datetime" .desc, .idKey]
    ∧ compileSortKeys (f :: fs)
        = ((f :: fs).map (fun x => .fieldKey x.field x.direction)) ++ [.idKey]
    ∧ cmpKeys (compileSortKeys s) a b ≠ .eq
    ∧ (∀ x y z : Item, cmpKeys (compileSortKeys s) x y = .lt →
        cmpKeys (compileSortKeys s) y z = .lt →
        cmpKeys (compileSortKeys s) x z = .lt) := by
  refine ⟨rfl, rfl, ?_, fun x y z h1 h2 => cmpKeys_lt_trans _ h1 h2⟩
  obtain ⟨ks, hks⟩ := compileSortKeys_ends_idKey s
  rw [hks]
  intro h
  exact hab (cmpKeys_idKey_last_eq h)

/-- Concrete instance of `post_search_sort_total`. -/
theorem post_search_sort_total_witness :
    compileSortKeys [] = [.fieldKey "datetime" .desc, .idKey]
    ∧ compileSortKeys [⟨"eo:cloud_cover", .asc⟩]
        = (([⟨"eo:cloud_cover", .asc⟩] : List SortField).map
            (fun x => .fieldKey x.field x.direction)) ++ [.idKey]
    ∧ cmpKeys (compileSortKeys [⟨"eo:cloud_cover", .asc⟩])
        ⟨1, 0, 5, ⟨0, 0, 1, 1⟩, [], ⟨0, 0, 1, 1⟩⟩
        ⟨2, 0, 5, ⟨0, 0, 1, 1⟩, [], ⟨0, 0, 1, 1⟩⟩ ≠ .eq
    ∧ (∀ x y z : Item,
        cmpKeys (compileSortKeys [⟨"eo:cloud_cover", .asc⟩]) x y = .lt →
        cmpKeys (compileSortKeys [⟨"eo:cloud_cover", .asc⟩]) y z = .lt →
        cmpKeys (compileSortKeys [⟨"eo:cloud_cover", .asc⟩]) x z = .lt) :=
  post_search_sort_total [⟨"eo:cloud_cover", .asc⟩] ⟨"eo:cloud_cover", .asc⟩ []
    ⟨1, 0, 5, ⟨0, 0, 1, 1⟩, [], ⟨0, 0, 1, 1⟩⟩
    ⟨2, 0, 5, ⟨0, 0, 1, 1⟩, [], ⟨0, 0, 1, 1⟩⟩ (by decide)

/-- Comparison operator of the query extension.  Modelled from the
spec: the operator enumeration lives in `stac_api.api.extensions`
(not among the provided sources); §3 gives the numeric comparison
operators. -/
inductive Op where
  | eq
  | neq
  | lt
  | lte
  | gt
  | gte
deriving DecidableEq, Repr

/-- Evaluation of a query-extension operator against a field value. -/
def Op.eval (o : Op) (field value : Int) : Bool :=
  match o with
  | .eq => field = value
  | .neq => field ≠ value
  | .lt => field < value
  | .lte => field ≤ value
  | .gt => field > value
  | .gte => field ≥ value

/-- Modelled from the spec: `search_request.polygon()` /
`ST_Intersects` (stac_pydantic and PostGIS, outside the provided
sources) — the request `bbox` denotes its rectangle and the spatial
predicate is rectangle intersection. -/
def bboxIntersects (a b : BBox) : Bool :=
  a.x0 ≤ b.x1 && b.x0 ≤ a.x1 && a.y0 ≤ b.y1 && b.y0 ≤ a.y1

/-- Token direction of a keyset bookmark. -/
inductive Dir where
  | fwd
  | bwd
deriving DecidableEq, Repr

/-- A decoded pagination token: the bookmark row (standing for its
sort-key tuple) and the paging direction. -/
structure Token where
  row : Item
  dir : Dir
deriving DecidableEq, Repr

/-- A validated search request (`schemas.STACSearch`): empty lists
model absent `collections`/`ids`/`sortby`/`query`, `none` endpoints of
`datetime` model the `..` open sentinel. -/
structure STACSearch where
  collections : List Nat := []
  ids : List Nat := []
  bbox : Option BBox := none
  datetime : Option (Option Int × Option Int) := none
  query : List (String × Op × Int) := []
  sortby : List SortField := []
  limit : Nat := 10
  token : Option Token := none

/-- The compiled query plan: a conjunction of row predicates and the
accumulated ORDER BY key list.  SQLAlchemy's `Query.filter` ANDs a new
predicate onto the plan and `Query.order_by` appends criteria to any
already present (the code resets with `order_by(None)` where it wants
a fresh order, cf. the count query in `item_collection`). -/
structure Query where
  filters : List (Item → Bool)
  orderKeys : List SortKey

/-- SQLAlchemy `Query.filter`: AND one more predicate onto the plan. -/
def Query.addFilter (q : Query) (f : Item → Bool) : Query :=
  { q with filters := q.filters ++ [f] }

/-- SQLAlchemy `Query.order_by`: append ORDER BY criteria to those
already present. -/
def Query.orderBy (q : Query) (ks : List SortKey) : Query :=
  { q with orderKeys := q.orderKeys ++ ks }

/-- A row matches the plan when every accumulated predicate holds. -/
def Query.matches (q : Query) (it : Item) : Bool :=
  q.filters.all (fun f => f it)

/-- The temporal filters `post_search` chains onto the plan
(core.py lines 388-404): the two-sided `between` filter whenever the
`..` sentinel is absent, then unconditionally the one-sided filters
for each closed endpoint. -/
def codeTemporalFilters (d0 d1 : Option Int) : List (Item → Bool) :=
  (match d0, d1 with
   | some s, some e => [fun it => decide (s ≤ it.datetime) && decide (it.datetime ≤ e)]
   | _, _ => [])
  ++ (match d0 with
      | some s => [fun it => decide (s ≤ it.datetime)]
      | none => [])
  ++ (match d1 with
      | some e => [fun it => decide (it.datetime ≤ e)]
      | none => [])

/-- The query plan `post_search` compiles before pagination
(core.py lines 330-412): collection membership, then the sort, then
either the ids branch (id membership plus an extra identifier ORDER BY
key) or the spatial, temporal and attribute filters. -/
def compilePost (r : STACSearch) : Query :=
  let q : Query := ⟨[], []⟩
  let q := if r.collections.isEmpty then q
           else q.addFilter (fun it => r.collections.contains it.collection)
  let q := q.orderBy (compileSortKeys r.sortby)
  if r.ids.isEmpty then
    let q := match r.bbox with
             | some bb => q.addFilter (fun it => bboxIntersects it.geom bb)
             | none => q
    let q := match r.datetime with
             | some (d0, d1) => (codeTemporalFilters d0 d1).foldl Query.addFilter q
             | none => q
    r.query.foldl (fun q e => q.addFilter (fun it => e.2.1.eval (it.getField e.1) e.2.2)) q
  else
    (q.addFilter (fun it => r.ids.contains it.id)).orderBy [.idKey]

/-- C2: with a non-empty `ids` list the compiled predicate is exactly
identifier membership, ANDed with collection membership when
`collections` is given; the spatial, temporal and attribute filters do
not contribute, so in particular the predicate does not change when a
`bbox` is added to the request. -/
theorem post_search_ids_predicate (r : STACSearch) (it : Item) (bb : BBox)
    (h : ¬ r.ids.isEmpty) :
    (compilePost r).matches it
      = ((r.collections.isEmpty || r.collections.contains it.collection)
          && r.ids.contains it.id)
    ∧ (compilePost { r with bbox := some bb }).matches it
        = (compilePost r).matches it := by
  have key : ∀ r' : STACSearch, ¬ r'.ids.isEmpty →
      (compilePost r').matches it
        = ((r'.collections.isEmpty || r'.collections.contains it.collection)
            && r'.ids.contains it.id) := by
    intro r' h'
    unfold compilePost
    simp only [if_neg h']
    by_cases hc : r'.collections.isEmpty <;>
      simp [hc, Query.addFilter, Query.orderBy, Query.matches]
  refine ⟨key r h, ?_⟩
  rw [key r h, key { r with bbox := some bb } h]

/-- Concrete instance of `post_search_ids_predicate`: the item's
geometry rectangle (0,0)-(1,1) is disjoint from the requested bbox
(100,100)-(200,200), yet the compiled predicate accepts the item
because its identifier is requested. -/
theorem post_search_ids_predicate_witness :
    (compilePost { ids := [5], bbox := some ⟨100, 100, 200, 200⟩ }).matches
        ⟨5, 0, 7, ⟨0, 0, 1, 1⟩, [], ⟨0, 0, 1, 1⟩⟩
      = ((List.isEmpty ([] : List Nat)
            || ([] : List Nat).contains (0 : Nat)) && [5].contains (5 : Nat))
    ∧ (compilePost { ids := [5], bbox := some ⟨100, 100, 200, 200⟩ }).matches
        ⟨5, 0, 7, ⟨0, 0, 1, 1⟩, [], ⟨0, 0, 1, 1⟩⟩
      = (compilePost { ids := [5] }).matches
          ⟨5, 0, 7, ⟨0, 0, 1, 1⟩, [], ⟨0, 0, 1, 1⟩⟩ := by
  have := post_search_ids_predicate { ids := [5] }
    ⟨5, 0, 7, ⟨0, 0, 1, 1⟩, [], ⟨0, 0, 1, 1⟩⟩ ⟨100, 100, 200, 200⟩ (by decide)
  exact ⟨this.2 ▸ this.1, this.2⟩

/-- Conjunction of the temporal filters the code chains onto the
plan, as one predicate over an item timestamp. -/
def codeTemporalPred (d0 d1 : Option Int) (t : Int) : Bool :=
  (codeTemporalFilters d0 d1).all
    (fun f => f ⟨0, 0, t, ⟨0, 0, 0, 0⟩, [], ⟨0, 0, 0, 0⟩⟩)

/-- The collapsed three-case temporal policy, following the spec's
words: both endpoints closed gives start ≤ t ≤ end, an open start
gives t ≤ end, an open end gives t ≥ start. -/
def specTemporalPred (d0 d1 : Option Int) (t : Int) : Bool :=
  match d0, d1 with
  | some s, some e => decide (s ≤ t) && decide (t ≤ e)
  | none, some e => decide (t ≤ e)
  | some s, none => decide (s ≤ t)
  | none, none => true

/-- C4: for a two-element datetime interval in which not both
endpoints are the open sentinel, the conjunction of the redundant
filters `post_search` applies (the two-sided `between` plus the
unconditional one-sided filters) equals the collapsed three-case
policy; the filters only read the item timestamp, so the equivalence
is stated over it. -/
theorem post_search_temporal_equiv (d0 d1 : Option Int) (t : Int)
    (h : ¬ (d0 = none ∧ d1 = none)) :
    codeTemporalPred d0 d1 t = specTemporalPred d0 d1 t
    ∧ ∀ it : Item, it.datetime = t →
        ((codeTemporalFilters d0 d1).all (fun f => f it)
          = specTemporalPred d0 d1 t) := by
  have key : ∀ it : Item, it.datetime = t →
      ((codeTemporalFilters d0 d1).all (fun f => f it)
        = specTemporalPred d0 d1 t) := by
    intro it hit
    cases d0 with
    | none =>
      cases d1 with
      | none => exact absurd ⟨rfl, rfl⟩ h
      | some e => simp [codeTemporalFilters, specTemporalPred, hit]
    | some s =>
      cases d1 with
      | none => simp [codeTemporalFilters, specTemporalPred, hit]
      | some e =>
        simp only [codeTemporalFilters, specTemporalPred, List.cons_append,
          List.nil_append, List.all_cons, List.all_nil, hit]
        by_cases h1 : s ≤ t <;> by_cases h2 : t ≤ e <;> simp [h1, h2]
  exact ⟨key _ rfl, key⟩

/-- Concrete instance of `post_search_temporal_equiv` at the interval
with open start `[.., 100]` and timestamp 42. -/
theorem post_search_temporal_equiv_witness :
    codeTemporalPred none (some 100) 42 = specTemporalPred none (some 100) 42
    ∧ ∀ it : Item, it.datetime = 42 →
        ((codeTemporalFilters none (some 100)).all (fun f => f it)
          = specTemporalPred none (some 100) 42) :=
  post_search_temporal_equiv none (some 100) 42 (by decide)

/-- Non-strict order on items induced by a compiled ORDER BY key
list. -/
def leOfKeys (ks : List SortKey) (a b : Item) : Bool :=
  !(decide (cmpKeys ks a b = .gt))

/-- Insert into a sorted list, used to model the store's ORDER BY
execution as a stable sort. -/
def insertLe (le : Item → Item → Bool) (x : Item) : List Item → List Item
  | [] => [x]
  | y :: ys => if le x y then x :: y :: ys else y :: insertLe le x ys

/-- Stable sort of the store rows by the compiled order; models the
ordered result stream the compiled query yields. -/
def sortRows (le : Item → Item → Bool) : List Item → List Item
  | [] => []
  | x :: xs => insertLe le x (sortRows le xs)

/-- One executed keyset page: the rows before the page in the stream,
the page rows (forward order), the rows after, and the more-rows
flags. -/
structure Paging where
  before : List Item
  rows : List Item
  after : List Item
  hasNext : Bool
  hasPrev : Bool

/-- Modelled from the spec: `sqlakeyset.get_page` is outside the
provided sources; §4.4 — with no token the page starts at the
beginning of the stream; with a forward token it is the first `limit`
rows strictly after the bookmark, fetching `limit + 1` rows to detect
more; with a backward token it is the last `limit` rows strictly
before the bookmark; the cross-direction flag records whether rows
exist on the other side of the page. -/
def getPage (cmp : Item → Item → Ordering) (l : List Item) (limit : Nat)
    (tok : Option Token) : Paging :=
  match tok with
  | none =>
    let fetched := l.take (limit + 1)
    { before := [], rows := fetched.take limit, after := l.drop limit,
      hasNext := decide (limit < fetched.length), hasPrev := false }
  | some t =>
    match t.dir with
    | .fwd =>
      let rest := l.filter (fun x => decide (cmp t.row x = .lt))
      let fetched := rest.take (limit + 1)
      { before := l.filter (fun x => !(decide (cmp t.row x = .lt))),
        rows := fetched.take limit,
        after := rest.drop limit,
        hasNext := decide (limit < fetched.length),
        hasPrev := decide (l.filter (fun x => !(decide (cmp t.row x = .lt))) ≠ []) }
    | .bwd =>
      let pre := l.filter (fun x => decide (cmp x t.row = .lt))
      { before := pre.take (pre.length - limit),
        rows := pre.drop (pre.length - limit),
        after := l.filter (fun x => !(decide (cmp x t.row = .lt))),
        hasNext := decide (l.filter (fun x => !(decide (cmp x t.row = .lt))) ≠ []),
        hasPrev := decide (limit < pre.length) }

/-- Modelled from the spec: the pagination token client
(`stac_api.clients.postgres.tokens`) is outside the provided sources;
tokens are an opaque, round-tripping encoding of the bookmark, so the
encoding is modelled as the bookmark itself.  `bookmark_next` is the
sort-key tuple of the last page row, direction forward. -/
def Paging.bookmarkNext (p : Paging) : Option Token :=
  p.rows.getLast?.map (fun row => ⟨row, .fwd⟩)

/-- The `bookmark_previous` keyset: the sort-key tuple of the first
page row, direction backward. -/
def Paging.bookmarkPrev (p : Paging) : Option Token :=
  p.rows.head?.map (fun row => ⟨row, .bwd⟩)

/-- Pagination link relation. -/
inductive Rel where
  | next
  | prev
deriving DecidableEq, Repr

/-- The POST body `{"token": t}` of a pagination link. -/
structure TokenBody where
  token : Option Token
deriving DecidableEq, Repr

/-- A pagination link of the response envelope. -/
structure PaginationLink where
  rel : Rel
  type : String
  href : String
  method : String
  body : Option TokenBody
  merge : Bool
deriving DecidableEq, Repr

/-- The next link `post_search` emits (core.py lines 437-447). -/
def nextLink (base : String) (p : Paging) : PaginationLink :=
  { rel := .next, type := "application/geo+json", href := base ++ "search",
    method := "POST", body := some ⟨p.bookmarkNext⟩, merge := true }

/-- The previous link `post_search` emits (core.py lines 448-458). -/
def prevLink (base : String) (p : Paging) : PaginationLink :=
  { rel := .prev, type := "application/geo+json", href := base ++ "search",
    method := "POST", body := some ⟨p.bookmarkPrev⟩, merge := true }

/-- The pagination links of the response (core.py lines 420-458): the
next link exactly when the page has a next bookmark, the previous link
exactly when it has a previous one. -/
def buildLinks (base : String) (p : Paging) : List PaginationLink :=
  (if p.hasNext then [nextLink base p] else [])
  ++ (if p.hasPrev then [prevLink base p] else [])

/-- The interleaved x components `[bbox[0], bbox[2], ...]` (or y with
`f`/`g` instantiated to the y accessors) collected over the page
(core.py lines 465-471). -/
def pairVals (f g : Item → Int) (items : List Item) : List Int :=
  items.foldr (fun i acc => f i :: g i :: acc) []

/-- Python `min` over a list: `none` on the empty list (where Python
raises `ValueError`). -/
def listMin : List Int → Option Int
  | [] => none
  | x :: xs => some (xs.foldl min x)

/-- Python `max` over a list: `none` on the empty list. -/
def listMax : List Int → Option Int
  | [] => none
  | x :: xs => some (xs.foldl max x)

/-- The aggregate bbox of the response (core.py lines 465-477):
min/max over the collected x and y components of the page items'
bboxes; `none` when the page is empty and the `min()` call raises
`ValueError`, which the code turns into a `None` bbox. -/
def computeBbox (items : List Item) : Option BBox :=
  let xvals := pairVals (fun i => i.bbox.x0) (fun i => i.bbox.x1) items
  let yvals := pairVals (fun i => i.bbox.y0) (fun i => i.bbox.y1) items
  match listMin xvals, listMin yvals, listMax xvals, listMax yvals with
  | some a, some b, some c, some d => some ⟨a, b, c, d⟩
  | _, _, _, _ => none

/-- The context block of the response. -/
structure Context where
  returned : Nat
  limit : Nat
  matched : Nat
deriving DecidableEq, Repr

/-- The search response envelope `post_search` returns. -/
structure Response where
  features : List Item
  links : List PaginationLink
  bbox : Option BBox
  context : Option Context

/-- The `post_search` pipeline (core.py lines 321-493) over a store
modelled as a list of items: compile the plan, filter and sort the
store, count for the context extension (`len(ids)` for an ids search,
a count query over the compiled predicate otherwise), execute the
keyset page, and assemble links, aggregate bbox and context. -/
def postSearch (ctxEnabled : Bool) (base : String) (r : STACSearch)
    (store : List Item) : Response :=
  let q := compilePost r
  let matchedRows := store.filter q.matches
  let sorted := sortRows (leOfKeys q.orderKeys) matchedRows
  let count : Nat := if r.ids.isEmpty then matchedRows.length else r.ids.length
  let page := getPage (cmpKeys q.orderKeys) sorted r.limit r.token
  { features := page.rows,
    links := buildLinks base page,
    bbox := computeBbox page.rows,
    context := if ctxEnabled then some ⟨page.rows.length, r.limit, count⟩ else none }

/-- Item with identifier 1 and the earlier timestamp. -/
def itemEarly : Item := ⟨1, 0, 5, ⟨0, 0, 1, 1⟩, [], ⟨0, 0, 1, 1⟩⟩

/-- Item with identifier 2 and the later timestamp. -/
def itemLate : Item := ⟨2, 0, 9, ⟨0, 0, 1, 1⟩, [], ⟨0, 0, 1, 1⟩⟩

/-- An ids search request for identifiers 1 and 2, no client sort. -/
def idsRequest : STACSearch := { ids := [1, 2] }

/-- C3 counterexample: `Query.order_by` appends criteria to those
already present (the code itself resets an order with
`order_by(None)` for its count query), so the ids branch orders by
the previously compiled sort first and only then by identifier.  With
the default sort, the ids search for identifiers 1 and 2 returns the
later-timestamped item with the larger identifier first: the result
is not ordered by identifier ascending. -/
theorem post_search_ids_order_cex :
    (postSearch false "" idsRequest [itemEarly, itemLate]).features
      = [itemLate, itemEarly]
    ∧ ¬ List.Pairwise (fun x y : Item => x.id < y.id)
        (postSearch false "" idsRequest [itemEarly, itemLate]).features := by
  constructor
  · decide
  · decide

/-- C3 amended: for a search request with a non-empty ids list the
compiled order is the previously compiled sort (the client's sortby
with the identifier tie-break, or the default timestamp descending
then identifier) with one more identifier-ascending key appended at
the end — identifier ascending is only the final tie-break, not the
whole order. -/
theorem post_search_ids_order (r : STACSearch) (h : ¬ r.ids.isEmpty) :
    (compilePost r).orderKeys = compileSortKeys r.sortby ++ [.idKey] := by
  unfold compilePost
  simp only [if_neg h]
  by_cases hc : r.collections.isEmpty <;>
    simp [hc, Query.addFilter, Query.orderBy]

/-- Concrete instance of `post_search_ids_order`. -/
theorem post_search_ids_order_witness :
    (compilePost idsRequest).orderKeys
      = compileSortKeys idsRequest.sortby ++ [.idKey] :=
  post_search_ids_order idsRequest (by decide)

/-- The compiled plan reads neither `limit` nor `token`. -/
theorem compilePost_limit_token (r : STACSearch) (limit' : Nat)
    (tok' : Option Token) :
    compilePost { r with limit := limit', token := tok' } = compilePost r := rfl

/-- C6 counterexample: for the ids search for identifiers 1 and 2
over a store holding only the item with identifier 1, the context
reports `matched = len(ids) = 2`, while exactly one item satisfies
the compiled predicate — for ids searches `matched` is not the count
of items satisfying the predicate. -/
theorem post_search_context_cex :
    (postSearch true "" idsRequest [itemEarly]).context = some ⟨1, 10, 2⟩
    ∧ ([itemEarly].filter (compilePost idsRequest).matches).length = 1
    ∧ (2 : Nat) ≠ 1 := by
  refine ⟨by decide, by decide, by decide⟩

/-- C6 amended: with the context extension enabled the context
reports `returned` equal to the page length and `matched` equal to
the count of items satisfying the compiled predicate for a non-ids
search but equal to the number of requested ids for an ids search;
`matched` is independent of `limit` and of the pagination token; with
the extension disabled there is no context. -/
theorem post_search_context (r : STACSearch) (store : List Item) (b : String)
    (limit' : Nat) (tok' : Option Token) :
    (postSearch true b r store).context
      = some ⟨(getPage (cmpKeys (compilePost r).orderKeys)
                  (sortRows (leOfKeys (compilePost r).orderKeys)
                    (store.filter (compilePost r).matches))
                  r.limit r.token).rows.length,
              r.limit,
              if r.ids.isEmpty then (store.filter (compilePost r).matches).length
              else r.ids.length⟩
    ∧ ((postSearch true b { r with limit := limit', token := tok' } store).context.map
          Context.matched
        = (postSearch true b r store).context.map Context.matched)
    ∧ (postSearch false b r store).context = none := by
  refine ⟨rfl, ?_, rfl⟩
  simp [postSearch, compilePost_limit_token]

/-- One step of the componentwise envelope: fold a further item's
bbox into the accumulator. -/
def envAcc (e : BBox) (j : Item) : BBox :=
  ⟨min e.x0 j.bbox.x0, min e.y0 j.bbox.y0, max e.x1 j.bbox.x1, max e.y1 j.bbox.y1⟩

/-- The componentwise min/max envelope over the page items' bounding
boxes, following the spec's words: min x, min y, max x, max y; absent
for an empty page. -/
def specBboxEnvelope : List Item → Option BBox
  | [] => none
  | i :: is => some (is.foldl envAcc i.bbox)

theorem foldl_min_pairVals (f g : Item → Int) (l : List Item) (a : Int)
    (h : ∀ i ∈ l, f i ≤ g i) :
    (pairVals f g l).foldl min a = (l.map f).foldl min a := by
  induction l generalizing a with
  | nil => rfl
  | cons i is ih =>
    have hi : f i ≤ g i := h i (by simp)
    have step : min (min a (f i)) (g i) = min a (f i) := by omega
    calc (pairVals f g (i :: is)).foldl min a
        = (pairVals f g is).foldl min (min (min a (f i)) (g i)) := rfl
      _ = (pairVals f g is).foldl min (min a (f i)) := by rw [step]
      _ = (is.map f).foldl min (min a (f i)) :=
          ih _ (fun j hj => h j (by simp [hj]))
      _ = ((i :: is).map f).foldl min a := rfl

theorem foldl_max_pairVals (f g : Item → Int) (l : List Item) (a : Int)
    (h : ∀ i ∈ l, f i ≤ g i) :
    (pairVals f g l).foldl max a = (l.map g).foldl max a := by
  induction l generalizing a with
  | nil => rfl
  | cons i is ih =>
    have hi : f i ≤ g i := h i (by simp)
    have step : max (max a (f i)) (g i) = max a (g i) := by omega
    calc (pairVals f g (i :: is)).foldl max a
        = (pairVals f g is).foldl max (max (max a (f i)) (g i)) := rfl
      _ = (pairVals f g is).foldl max (max a (g i)) := by rw [step]
      _ = (is.map g).foldl max (max a (g i)) :=
          ih _ (fun j hj => h j (by simp [hj]))
      _ = ((i :: is).map g).foldl max a := rfl

theorem foldl_envAcc_components (is : List Item) (e : BBox) :
    (is.foldl envAcc e).x0 = (is.map (fun j => j.bbox.x0)).foldl min e.x0
    ∧ (is.foldl envAcc e).y0 = (is.map (fun j => j.bbox.y0)).foldl min e.y0
    ∧ (is.foldl envAcc e).x1 = (is.map (fun j => j.bbox.x1)).foldl max e.x1
    ∧ (is.foldl envAcc e).y1 = (is.map (fun j => j.bbox.y1)).foldl max e.y1 := by
  induction is generalizing e with
  | nil => exact ⟨rfl, rfl, rfl, rfl⟩
  | cons i is ih =>
    obtain ⟨h1, h2, h3, h4⟩ := ih (envAcc e i)
    exact ⟨h1, h2, h3, h4⟩

/-- C7: under well-formed item bounding boxes the aggregate bbox of
the page equals the componentwise min/max envelope over exactly the
page items' bboxes; for an empty page it is `none` (the `ValueError`
of `min` on an empty sequence is caught, no error escapes); and the
response bbox is computed from the page rows only. -/
theorem post_search_bbox (items : List Item) (c : Bool) (b : String)
    (r : STACSearch) (store : List Item)
    (h : ∀ i ∈ items, i.bbox.x0 ≤ i.bbox.x1 ∧ i.bbox.y0 ≤ i.bbox.y1) :
    computeBbox items = specBboxEnvelope items
    ∧ computeBbox [] = none
    ∧ (postSearch c b r store).bbox
        = computeBbox (getPage (cmpKeys (compilePost r).orderKeys)
            (sortRows (leOfKeys (compilePost r).orderKeys)
              (store.filter (compilePost r).matches)) r.limit r.token).rows := by
  refine ⟨?_, rfl, by cases c <;> rfl⟩
  cases items with
  | nil => rfl
  | cons i is =>
    have hx : i.bbox.x0 ≤ i.bbox.x1 := (h i (by simp)).1
    have hy : i.bbox.y0 ≤ i.bbox.y1 := (h i (by simp)).2
    have hx' : ∀ j ∈ is, j.bbox.x0 ≤ j.bbox.x1 :=
      fun j hj => (h j (by simp [hj])).1
    have hy' : ∀ j ∈ is, j.bbox.y0 ≤ j.bbox.y1 :=
      fun j hj => (h j (by simp [hj])).2
    have e1 : listMin (pairVals (fun j => j.bbox.x0) (fun j => j.bbox.x1) (i :: is))
        = some ((is.map (fun j => j.bbox.x0)).foldl min i.bbox.x0) := by
      show some ((pairVals (fun j : Item => j.bbox.x0) (fun j => j.bbox.x1) is).foldl
        min (min i.bbox.x0 i.bbox.x1)) = _
      rw [show min i.bbox.x0 i.bbox.x1 = i.bbox.x0 by omega]
      exact congrArg some (foldl_min_pairVals _ _ is i.bbox.x0 hx')
    have e2 : listMin (pairVals (fun j => j.bbox.y0) (fun j => j.bbox.y1) (i :: is))
        = some ((is.map (fun j => j.bbox.y0)).foldl min i.bbox.y0) := by
      show some ((pairVals (fun j : Item => j.bbox.y0) (fun j => j.bbox.y1) is).foldl
        min (min i.bbox.y0 i.bbox.y1)) = _
      rw [show min i.bbox.y0 i.bbox.y1 = i.bbox.y0 by omega]
      exact congrArg some (foldl_min_pairVals _ _ is i.bbox.y0 hy')
    have e3 : listMax (pairVals (fun j => j.bbox.x0) (fun j => j.bbox.x1) (i :: is))
        = some ((is.map (fun j => j.bbox.x1)).foldl max i.bbox.x1) := by
      show some ((pairVals (fun j : Item => j.bbox.x0) (fun j => j.bbox.x1) is).foldl
        max (max i.bbox.x0 i.bbox.x1)) = _
      rw [show max i.bbox.x0 i.bbox.x1 = i.bbox.x1 by omega]
      exact congrArg some (foldl_max_pairVals _ _ is i.bbox.x1 hx')
    have e4 : listMax (pairVals (fun j => j.bbox.y0) (fun j => j.bbox.y1) (i :: is))
        = some ((is.map (fun j => j.bbox.y1)).foldl max i.bbox.y1) := by
      show some ((pairVals (fun j : Item => j.bbox.y0) (fun j => j.bbox.y1) is).foldl
        max (max i.bbox.y0 i.bbox.y1)) = _
      rw [show max i.bbox.y0 i.bbox.y1 = i.bbox.y1 by omega]
      exact congrArg some (foldl_max_pairVals _ _ is i.bbox.y1 hy')
    obtain ⟨c1, c2, c3, c4⟩ := foldl_envAcc_components is i.bbox
    show (match listMin (pairVals (fun j => j.bbox.x0) (fun j => j.bbox.x1) (i :: is)),
            listMin (pairVals (fun j => j.bbox.y0) (fun j => j.bbox.y1) (i :: is)),
            listMax (pairVals (fun j => j.bbox.x0) (fun j => j.bbox.x1) (i :: is)),
            listMax (pairVals (fun j => j.bbox.y0) (fun j => j.bbox.y1) (i :: is)) with
          | some a, some b', some c', some d => some (⟨a, b', c', d⟩ : BBox)
          | _, _, _, _ => none)
        = some (is.foldl envAcc i.bbox)
    rw [e1, e2, e3, e4]
    show some _ = _
    exact congrArg some (by
      cases hfe : is.foldl envAcc i.bbox with
      | mk v1 v2 v3 v4 =>
        rw [hfe] at c1 c2 c3 c4
        simp only at c1 c2 c3 c4
        rw [← c1, ← c2, ← c3, ← c4])

/-- Concrete instance of `post_search_bbox` on a one-item page. -/
theorem post_search_bbox_witness :
    computeBbox [itemEarly] = specBboxEnvelope [itemEarly]
    ∧ computeBbox [] = none
    ∧ (postSearch false "" idsRequest []).bbox
        = computeBbox (getPage (cmpKeys (compilePost idsRequest).orderKeys)
            (sortRows (leOfKeys (compilePost idsRequest).orderKeys)
              (List.filter (compilePost idsRequest).matches []))
            idsRequest.limit idsRequest.token).rows :=
  post_search_bbox [itemEarly] false "" idsRequest [] (by decide)

/-- An exception escaping the store during query or count
execution: either the by-id lookup miss (`errors.NotFoundError`,
itself an `Exception`) or any other store failure. -/
inductive Exc where
  | notFound
  | store (msg : String)
deriving DecidableEq, Repr

/-- The error the client surfaces to the caller. -/
inductive ApiError where
  | notFound
  | databaseError (msg : String)
deriving DecidableEq, Repr

/-- The except-chain of `item_collection` (core.py lines 201-207):
`NotFoundError` is re-raised unchanged; any other exception is logged
(second component) and re-raised as a `DatabaseError`.  A success is
passed through untouched. -/
def itemCollectionGuard {α : Type} (res : Except Exc α) :
    Except ApiError α × Bool :=
  match res with
  | .ok a => (.ok a, false)
  | .error .notFound => (.error .notFound, false)
  | .error (.store _) =>
    (.error (.databaseError "Unhandled database error when getting collection children"),
     true)

/-- The except-chains of `post_search` (core.py lines 374-378 and
431-435): every exception is logged and re-raised as a
`DatabaseError` carrying the branch's message.  A success is passed
through untouched. -/
def postSearchGuard {α : Type} (msg : String) (res : Except Exc α) :
    Except ApiError α × Bool :=
  match res with
  | .ok a => (.ok a, false)
  | .error _ => (.error (.databaseError msg), true)

/-- C8: a store failure during query or count execution is caught,
logged and re-raised as a `DatabaseError` by both `post_search`
branches; a success is never swallowed; and in `item_collection` a
`NotFoundError` propagates unchanged (and unlogged) while any other
exception is logged and becomes a `DatabaseError`. -/
theorem store_error_guards (α : Type) (a : α) (e : Exc) (s m : String) :
    itemCollectionGuard (.ok a) = (.ok a, false)
    ∧ itemCollectionGuard (α := α) (.error .notFound) = (.error .notFound, false)
    ∧ itemCollectionGuard (α := α) (.error (.store s))
        = (.error (.databaseError
            "Unhandled database error when getting collection children"), true)
    ∧ postSearchGuard m (.ok a) = (.ok a, false)
    ∧ postSearchGuard (α := α) m (.error e)
        = (.error (.databaseError m), true) := by
  refine ⟨rfl, rfl, rfl, rfl, ?_⟩
  cases e <;> rfl

/-- Whether a string's first character is `c` (false for the empty
string). -/
def headIs (f : String) (c : Char) : Bool :=
  match f.data with
  | [] => false
  | d :: _ => d = c

/-- Python `f[1:]`: the string with its first character removed. -/
def strip1 (f : String) : String :=
  String.mk (f.data.drop 1)

/-- Strip a leading `+` if present, else keep the entry unchanged. -/
def stripPlus (f : String) : String :=
  if headIs f '+' then strip1 f else f

/-- The fields-parsing loop of `get_search` (core.py lines 288-298):
an entry starting `-` contributes its tail to the exclude set, one
starting `+` its tail to the include set, any other entry itself to
the include set.  Python `field[0]` raises `IndexError` on an empty
entry, modelled as `none`; the Python sets are modelled as the lists
of contributed names. -/
def parseFieldsAux : List String → List String × List String →
    Option (List String × List String)
  | [], acc => some acc
  | f :: fs, (inc, exc) =>
    match f.data with
    | [] => none
    | c :: cs =>
      if c = '-' then parseFieldsAux fs (inc, exc ++ [String.mk cs])
      else if c = '+' then parseFieldsAux fs (inc ++ [String.mk cs], exc)
      else parseFieldsAux fs (inc ++ [f], exc)

/-- Parsing of the `fields` list of `get_search`. -/
def parseFields (fields : List String) : Option (List String × List String) :=
  parseFieldsAux fields ([], [])

theorem parseFieldsAux_spec : ∀ (fields : List String) (inc exc : List String),
    (∀ f ∈ fields, f ≠ "") →
    parseFieldsAux fields (inc, exc) = some
      (inc ++ (fields.filter (fun f => !(headIs f '-'))).map stripPlus,
       exc ++ (fields.filter (fun f => headIs f '-')).map strip1) := by
  intro fields
  induction fields with
  | nil => intro inc exc h; simp [parseFieldsAux]
  | cons f fs ih =>
    intro inc exc h
    have hne : f ≠ "" := h f (by simp)
    have hfs : ∀ x ∈ fs, x ≠ "" := fun x hx => h x (by simp [hx])
    obtain ⟨d⟩ := f
    cases d with
    | nil => exact absurd rfl hne
    | cons c cs =>
      by_cases h1 : c = '-'
      · subst h1
        show parseFieldsAux fs (inc, exc ++ [String.mk cs]) = _
        rw [ih _ _ hfs]
        simp [headIs, strip1, stripPlus, List.append_assoc]
      · by_cases h2 : c = '+'
        · subst h2
          show parseFieldsAux fs (inc ++ [String.mk cs], exc) = _
          rw [ih _ _ hfs]
          simp [headIs, strip1, stripPlus, h1, List.append_assoc]
        · have hstep : parseFieldsAux (String.mk (c :: cs) :: fs) (inc, exc)
              = parseFieldsAux fs (inc ++ [String.mk (c :: cs)], exc) := by
            simp [parseFieldsAux, h1, h2]
          rw [hstep, ih _ _ hfs]
          simp [headIs, strip1, stripPlus, h1, h2, List.append_assoc]

/-- C9 counterexample: a fields list containing the empty string
makes the loop index `field[0]` out of range, so no parse is
produced and in particular the empty entry is not placed unchanged
in the include set. -/
theorem get_search_fields_cex :
    parseFields [""] = none
    ∧ ∀ inc exc : List String, parseFields [""] ≠ some (inc, exc) := by
  refine ⟨by decide, fun inc exc hcontra => ?_⟩
  rw [show parseFields [""] = none by decide] at hcontra
  exact Option.noConfusion hcontra

/-- C9 amended: for every fields list whose entries are all
non-empty, each entry beginning `-` contributes its prefix-stripped
name to the exclude set, each entry beginning `+` its prefix-stripped
name to the include set, and every other entry itself to the include
set; no entry is dropped and each entry contributes to exactly one of
the two sets. -/
theorem get_search_fields (fields : List String)
    (h : ∀ f ∈ fields, f ≠ "") :
    parseFields fields = some
      ((fields.filter (fun f => !(headIs f '-'))).map stripPlus,
       (fields.filter (fun f => headIs f '-')).map strip1) := by
  have hx := parseFieldsAux_spec fields [] [] h
  simpa [parseFields] using hx

/-- Concrete instance of `get_search_fields`. -/
theorem get_search_fields_witness :
    parseFields ["+a", "-b", "c"] = some
      (((["+a", "-b", "c"] : List String).filter
          (fun f => !(headIs f '-'))).map stripPlus,
       ((["+a", "-b", "c"] : List String).filter
          (fun f => headIs f '-')).map strip1) :=
  get_search_fields ["+a", "-b", "c"] (by decide)

/-- The sortby-parsing step of `get_search` (core.py lines 277-286):
the field name is `sort[1:]` and the direction is ascending exactly
when `sort[0]` is `+`, otherwise descending; `sort[0]` on an empty
entry raises, modelled as `none`. -/
def parseSortEntry (s : String) : Option SortField :=
  match s.data with
  | [] => none
  | c :: cs => some ⟨String.mk cs, if c = '+' then .asc else .desc⟩

/-- Parsing of the whole `sortby` list of `get_search`. -/
def parseSortby (sortby : List String) : Option (List SortField) :=
  sortby.mapM parseSortEntry

/-- C10: a sortby entry whose first character is not `+` is parsed
with direction descending and its first character stripped from the
field name; in particular the unprefixed entry "datetime" yields the
field "atetime" sorted descending. -/
theorem get_search_sortby_desc (c : Char) (cs : List Char) (h : c ≠ '+') :
    parseSortEntry (String.mk (c :: cs)) = some ⟨String.mk cs, .desc⟩
    ∧ parseSortEntry "datetime" = some ⟨"atetime", .desc⟩ := by
  constructor
  · simp [parseSortEntry, h]
  · decide

/-- Concrete instance of `get_search_sortby_desc`. -/
theorem get_search_sortby_desc_witness :
    parseSortEntry (String.mk ['x']) = some ⟨String.mk [], .desc⟩
    ∧ parseSortEntry "datetime" = some ⟨"atetime", .desc⟩ :=
  get_search_sortby_desc 'x' [] (by decide)

/-- Splitting an ordered list at a downward-closed predicate: the
rows satisfying it form the prefix, the rest the suffix. -/
theorem sorted_filter_split {α : Type} (p : α → Bool) (l : List α)
    (R : α → α → Prop) (hl : l.Pairwise R)
    (hdown : ∀ a x, R a x → p x = true → p a = true) :
    l.filter p ++ l.filter (fun x => !(p x)) = l := by
  induction l with
  | nil => rfl
  | cons h t ih =>
    have hR : ∀ x ∈ t, R h x := (List.pairwise_cons.mp hl).1
    have ht : t.Pairwise R := (List.pairwise_cons.mp hl).2
    by_cases hp : p h = true
    · have e1 : List.filter p (h :: t) = h :: List.filter p t := by
        simp [List.filter_cons, hp]
      have e2 : List.filter (fun x => !(p x)) (h :: t)
          = List.filter (fun x => !(p x)) t := by
        simp [List.filter_cons, hp]
      rw [e1, e2, List.cons_append, ih ht]
    · have hallt : ∀ x ∈ t, p x = false := by
        intro x hx
        cases hpx : p x with
        | false => rfl
        | true => exact absurd (hdown h x (hR x hx) hpx) hp
      have e1 : List.filter p (h :: t) = [] := by
        rw [List.filter_cons_of_neg (by simp [hp])]
        rw [List.filter_eq_nil_iff]
        intro x hx
        simp [hallt x hx]
      have e2 : List.filter (fun x => !(p x)) (h :: t) = h :: t := by
        rw [List.filter_cons_of_pos (by simp [hp])]
        congr 1
        rw [List.filter_eq_self]
        intro x hx
        simp [hallt x hx]
      rw [e1, e2, List.nil_append]

/-- Splitting an ordered list at an upward-closed predicate: the rows
violating it form the prefix, the rows satisfying it the suffix. -/
theorem sorted_filter_split_not {α : Type} (p : α → Bool) (l : List α)
    (R : α → α → Prop) (hl : l.Pairwise R)
    (hup : ∀ a x, R a x → p a = true → p x = true) :
    l.filter (fun x => !(p x)) ++ l.filter p = l := by
  have hdown : ∀ a x, R a x → (!(p x)) = true → (!(p a)) = true := by
    intro a x hR hpx
    cases hpa : p a with
    | false => rfl
    | true =>
      rw [hup a x hR hpa] at hpx
      exact absurd hpx (by decide)
  have h2 := sorted_filter_split (fun x => !(p x)) l R hl hdown
  rw [show List.filter (fun x => !(!(p x))) l = List.filter p l from
    List.filter_congr (fun a _ => Bool.not_not (p a))] at h2
  exact h2

theorem buildLinks_next_iff (base : String) (p : Paging) :
    (∃ lnk ∈ buildLinks base p, lnk.rel = .next) ↔ p.hasNext = true := by
  cases hn : p.hasNext <;> cases hv : p.hasPrev <;>
    simp [buildLinks, hn, hv, nextLink, prevLink]

theorem buildLinks_prev_iff (base : String) (p : Paging) :
    (∃ lnk ∈ buildLinks base p, lnk.rel = .prev) ↔ p.hasPrev = true := by
  cases hn : p.hasNext <;> cases hv : p.hasPrev <;>
    simp [buildLinks, hn, hv, nextLink, prevLink]

theorem buildLinks_shape (base : String) (p : Paging) :
    ∀ lnk ∈ buildLinks base p,
      (lnk.rel = .next → lnk = nextLink base p)
      ∧ (lnk.rel = .prev → lnk = prevLink base p) := by
  intro lnk hlnk
  cases hn : p.hasNext <;> cases hv : p.hasPrev <;>
    rw [buildLinks, hn, hv] at hlnk <;> simp at hlnk
  · rcases hlnk with rfl
    exact ⟨fun h => by simp [prevLink] at h, fun _ => rfl⟩
  · rcases hlnk with rfl
    exact ⟨fun _ => rfl, fun h => by simp [nextLink] at h⟩
  · rcases hlnk with rfl | rfl
    · exact ⟨fun _ => rfl, fun h => by simp [nextLink] at h⟩
    · exact ⟨fun h => by simp [prevLink] at h, fun _ => rfl⟩

/-- C5: for a page executed over the ordered result stream, the
stream decomposes as the rows before the page, the page rows and the
rows after the page; the response carries a next pagination link
exactly when rows exist after the page and a previous link exactly
when rows exist before it; every emitted link is the POST link whose
body is the token of the corresponding page-boundary bookmark with
the merge flag set. -/
theorem post_search_pagination (ks : List SortKey) (l : List Item)
    (limit : Nat) (tok : Option Token) (base : String) (p : Paging)
    (hp : p = getPage (cmpKeys ks) l limit tok)
    (hs : l.Pairwise (fun a b => cmpKeys ks a b = .lt)) :
    l = p.before ++ p.rows ++ p.after
    ∧ ((∃ lnk ∈ buildLinks base p, lnk.rel = .next) ↔ p.after ≠ [])
    ∧ ((∃ lnk ∈ buildLinks base p, lnk.rel = .prev) ↔ p.before ≠ [])
    ∧ (∀ lnk ∈ buildLinks base p,
        (lnk.rel = .next → lnk = nextLink base p)
        ∧ (lnk.rel = .prev → lnk = prevLink base p))
    ∧ p.bookmarkNext = p.rows.getLast?.map (fun row => (⟨row, .fwd⟩ : Token))
    ∧ p.bookmarkPrev = p.rows.head?.map (fun row => (⟨row, .bwd⟩ : Token)) := by
  refine ⟨?_, ?_, ?_, buildLinks_shape base p, hp ▸ rfl, hp ▸ rfl⟩
  · -- stream decomposition
    subst hp
    cases tok with
    | none =>
      show l = [] ++ (List.take limit (List.take (limit + 1) l)) ++ List.drop limit l
      rw [List.nil_append, List.take_take,
        show limit ⊓ (limit + 1) = limit by omega,
        List.take_append_drop]
    | some t =>
      obtain ⟨row, dir⟩ := t
      cases dir with
      | fwd =>
        show l = List.filter (fun x => !(decide (cmpKeys ks row x = .lt))) l
            ++ List.take limit (List.take (limit + 1)
                (List.filter (fun x => decide (cmpKeys ks row x = .lt)) l))
            ++ List.drop limit
                (List.filter (fun x => decide (cmpKeys ks row x = .lt)) l)
        rw [List.take_take, show limit ⊓ (limit + 1) = limit by omega,
          List.append_assoc, List.take_append_drop]
        exact (sorted_filter_split_not
          (fun x => decide (cmpKeys ks row x = .lt)) l _ hs
          (fun a x hax ha => by
            rw [decide_eq_true_iff] at ha ⊢
            exact cmpKeys_lt_trans ks ha hax)).symm
      | bwd =>
        show l = List.take
              ((List.filter (fun x => decide (cmpKeys ks x row = .lt)) l).length - limit)
              (List.filter (fun x => decide (cmpKeys ks x row = .lt)) l)
            ++ List.drop
              ((List.filter (fun x => decide (cmpKeys ks x row = .lt)) l).length - limit)
              (List.filter (fun x => decide (cmpKeys ks x row = .lt)) l)
            ++ List.filter (fun x => !(decide (cmpKeys ks x row = .lt))) l
        rw [List.take_append_drop]
        exact (sorted_filter_split
          (fun x => decide (cmpKeys ks x row = .lt)) l _ hs
          (fun a x hax hx => by
            rw [decide_eq_true_iff] at hx ⊢
            exact cmpKeys_lt_trans ks hax hx)).symm
  · -- next link present iff rows exist after the page
    rw [buildLinks_next_iff]
    subst hp
    cases tok with
    | none =>
      show decide (limit < (List.take (limit + 1) l).length) = true
        ↔ List.drop limit l ≠ []
      rw [decide_eq_true_iff, List.length_take, Ne, List.drop_eq_nil_iff]
      omega
    | some t =>
      obtain ⟨row, dir⟩ := t
      cases dir with
      | fwd =>
        show decide (limit < (List.take (limit + 1)
            (List.filter (fun x => decide (cmpKeys ks row x = .lt)) l)).length) = true
          ↔ List.drop limit
              (List.filter (fun x => decide (cmpKeys ks row x = .lt)) l) ≠ []
        rw [decide_eq_true_iff, List.length_take, Ne, List.drop_eq_nil_iff]
        omega
      | bwd =>
        show decide (List.filter (fun x => !(decide (cmpKeys ks x row = .lt))) l ≠ [])
            = true
          ↔ List.filter (fun x => !(decide (cmpKeys ks x row = .lt))) l ≠ []
        exact decide_eq_true_iff
  · -- previous link present iff rows exist before the page
    rw [buildLinks_prev_iff]
    subst hp
    cases tok with
    | none =>
      show (false = true) ↔ ([] : List Item) ≠ []
      simp
    | some t =>
      obtain ⟨row, dir⟩ := t
      cases dir with
      | fwd =>
        show decide (List.filter (fun x => !(decide (cmpKeys ks row x = .lt))) l ≠ [])
            = true
          ↔ List.filter (fun x => !(decide (cmpKeys ks row x = .lt))) l ≠ []
        exact decide_eq_true_iff
      | bwd =>
        show decide (limit <
            (List.filter (fun x => decide (cmpKeys ks x row = .lt)) l).length) = true
          ↔ List.take
              ((List.filter (fun x => decide (cmpKeys ks x row = .lt)) l).length - limit)
              (List.filter (fun x => decide (cmpKeys ks x row = .lt)) l) ≠ []
        rw [decide_eq_true_iff, Ne, ← List.length_eq_zero, List.length_take]
        omega

/-- Concrete instance of `post_search_pagination`: a three-item
stream ordered by identifier, page size 1, no token. -/
theorem post_search_pagination_witness :
    let l := [itemEarly, itemLate,
      (⟨3, 0, 1, ⟨0, 0, 1, 1⟩, [], ⟨0, 0, 1, 1⟩⟩ : Item)]
    let p := getPage (cmpKeys [.idKey]) l 1 none
    l = p.before ++ p.rows ++ p.after
    ∧ ((∃ lnk ∈ buildLinks "b" p, lnk.rel = .next) ↔ p.after ≠ [])
    ∧ ((∃ lnk ∈ buildLinks "b" p, lnk.rel = .prev) ↔ p.before ≠ [])
    ∧ (∀ lnk ∈ buildLinks "b" p,
        (lnk.rel = .next → lnk = nextLink "b" p)
        ∧ (lnk.rel = .prev → lnk = prevLink "b" p))
    ∧ p.bookmarkNext = p.rows.getLast?.map (fun row => (⟨row, .fwd⟩ : Token))
    ∧ p.bookmarkPrev = p.rows.head?.map (fun row => (⟨row, .bwd⟩ : Token)) :=
  post_search_pagination [.idKey]
    [itemEarly, itemLate, ⟨3, 0, 1, ⟨0, 0, 1, 1⟩, [], ⟨0, 0, 1, 1⟩⟩]
    1 none "b" _ rfl (by decide)

end StacCore
